import Mathlib

/-!
# MailSentinel core — shallow embedding and verification

This file embeds, in Lean 4, the parts of the MailSentinel Go sources that the
specification's claims are about:

* `internal/resolver/resolver.go` — multi-profile decision resolution
  (`ResolveDecision`, `applyPriorityRules`, `applyConfidenceWeighting`,
  `resolveConflicts`, `resolveByHighestConfidence`, `resolveByConsensus`,
  `resolveByWeightedAverage`, `combineReasonings`, `evaluateCondition`);
* `internal/ollama/client.go` — classifier response validation
  (`parseClassificationResponse`, modulo raw-string JSON decoding, which is
  abstracted to an already-decoded JSON value);
* `internal/audit/logger.go` — the genesis entry of the audit chain
  (`initializeChain`);
* `internal/profile/loader.go` — profile loading
  (`validateProfile`, `buildDependencyGraph`, `topologicalSort`,
  `mergeWithParent`, `resolveInheritance`, `LoadAll`).

Modelling conventions:

* Go `float64` is modelled by `Rat`.  The claims under study are control-flow
  and ordering claims (comparisons, grouping, concatenation); none depends on
  floating-point rounding.  Rational sums are order-independent, whereas Go
  float sums are not; no claim depends on that either.
* Go maps are modelled by association lists in first-insertion order, or by
  functions with pointwise update.  Go's map iteration order is deliberately
  randomized; wherever the source iterates a map (the loader's dependency
  graph construction and Kahn queue initialisation) the iteration order is an
  explicit parameter of the embedded function, so a "run" of the Go program
  corresponds to a choice of those parameters.
* Effects (logging, wall-clock timestamps, file I/O) are dropped or taken as
  parameters; fallible code returns `Except`.
-/

namespace MailSentinel

/-- A decoded JSON value, the result of Go's `json.Unmarshal` into
`map[string]interface{}` / `interface{}`.  Go decodes every JSON number to
`float64`; numbers are modelled by `Rat`. -/
inductive JsonVal where
  | str  : String → JsonVal
  | num  : Rat → JsonVal
  | bool : Bool → JsonVal
  | arr  : List JsonVal → JsonVal
  | obj  : List (String × JsonVal) → JsonVal
  | null : JsonVal

/-- Association-list lookup, the model of a Go map read `m[k]`. -/
def assocLookup {α : Type} (m : List (String × α)) (k : String) : Option α :=
  match m with
  | [] => none
  | (k', v) :: rest => if k' = k then some v else assocLookup rest k

/-- Association-list write, the model of a Go map write `m[k] = v`
(replaces the value of an existing key, otherwise appends). -/
def assocSet {α : Type} (m : List (String × α)) (k : String) (v : α) :
    List (String × α) :=
  match m with
  | [] => [(k, v)]
  | (k', v') :: rest =>
      if k' = k then (k', v) :: rest else (k', v') :: assocSet rest k v

/-- `pat` is a leading segment of `s` (on character lists). -/
def charsLeading (pat s : List Char) : Bool :=
  match pat, s with
  | [], _ => true
  | _ :: _, [] => false
  | p :: ps, c :: cs => p == c && charsLeading ps cs

/-- `pat` occurs contiguously somewhere in `s` (on character lists). -/
def charsContain (s pat : List Char) : Bool :=
  match s with
  | [] => pat.isEmpty
  | _ :: rest => charsLeading pat s || charsContain rest pat

/-- Model of Go's `strings.Contains`. -/
def strContains (s sub : String) : Bool :=
  charsContain s.toList sub.toList

/-! ## Data model (`pkg/types`) -/

/-- `types.ModelParams`. -/
structure ModelParams where
  temperature    : Rat
  maxTokens      : Int
  timeoutSeconds : Int
  topP           : Rat
  topK           : Int
deriving DecidableEq, Repr

/-- `types.ValidationConfig`.  The Go field `ConfidenceRange` is a
`[2]float64`; it is modelled as a pair. -/
structure ValidationConfig where
  requiredFields  : List String
  confidenceRange : Rat × Rat
  allowedActions  : List String
deriving DecidableEq, Repr

/-- `types.ResponseConfig`. -/
structure ResponseConfig where
  schema     : String
  validation : ValidationConfig
deriving DecidableEq, Repr

/-- `types.FewShotExample`. -/
structure FewShotExample where
  name   : String
  input  : String
  output : String
deriving DecidableEq, Repr

/-- `types.PolicyCondition`. -/
structure PolicyCondition where
  name       : String
  expression : String
  actions    : List String
  priority   : Int
deriving DecidableEq, Repr

/-- `types.PolicyConfig`. -/
structure PolicyConfig where
  conditions : List PolicyCondition
deriving DecidableEq, Repr

/-- `types.ConditionalExecution`. -/
structure ConditionalExecution where
  whenExpr : String
  reason   : String
deriving DecidableEq, Repr

/-- `types.Profile`.  The wall-clock fields `CreatedAt`/`UpdatedAt` (set from
`time.Now()` by the loader and never read by the embedded code) are omitted. -/
structure Profile where
  id                   : String
  version              : String
  inheritsFrom         : String
  dependsOn            : List String
  conditionalExecution : Option ConditionalExecution
  model                : String
  modelParams          : ModelParams
  response             : ResponseConfig
  system               : String
  fewShot              : List FewShotExample
  policy               : PolicyConfig
deriving DecidableEq, Repr

/-- `types.ClassificationResponse`.  The wall-clock field `ProcessedAt`
(always `time.Now()` at the construction site) is omitted. -/
structure ClassificationResponse where
  profileID  : String
  action     : String
  confidence : Rat
  reasoning  : String
  labels     : List String
  metadata   : List (String × JsonVal)

/-- `types.PriorityRule`. -/
structure PriorityRule where
  name            : String
  condition       : String
  action          : String
  confidenceBoost : Rat
  priority        : Int
  reason          : String
deriving DecidableEq, Repr

/-- `types.ConfidenceWeighting`.  `ProfileWeights` is a Go map; it is only
ever read (`weights[id]`), so insertion order is irrelevant. -/
structure ConfidenceWeighting where
  method         : String
  profileWeights : List (String × Rat)
deriving DecidableEq, Repr

/-- `types.ResolverConfig`.  `ConflictResolution` is declared in the source
but never read by the resolver; it is modelled as an association list. -/
structure ResolverConfig where
  version             : String
  priorityRules       : List PriorityRule
  confidenceWeighting : ConfidenceWeighting
  conflictResolution  : List (String × String)
deriving DecidableEq, Repr

/-- `types.Email`, restricted to the fields read by the resolver
(`ID` for logging, `Headers` in `evaluateCondition`). -/
structure Email where
  id      : String
  headers : List (String × String)
deriving DecidableEq, Repr

/-! ## Decision resolver (`internal/resolver/resolver.go`) -/

/-- `resolver.min` (on `float64`). -/
def goMin (a b : Rat) : Rat := if a < b then a else b

/-- A single-quote character, used in the literal condition pattern
scanned by `evaluateCondition`. -/
def singleQuote : String := String.singleton (Char.ofNat 39)

/-- `resolver.evaluateCondition`.  The source tests the condition string for
three hard-coded sub-expressions in order, each of which may return `true`,
and falls through to `false`. -/
def evaluateCondition (condition : String) (email : Email)
    (results : List ClassificationResponse) : Bool :=
  (strContains condition "phishing_score >= 0.8" &&
    results.any (fun result =>
      match assocLookup result.metadata "phishing_score" with
      | some (JsonVal.num score) => decide (score ≥ (0.8 : Rat))
      | _ => false))
  ||
  (strContains condition ("importance == " ++ singleQuote ++ "critical" ++ singleQuote) &&
    results.any (fun result =>
      match assocLookup result.metadata "importance" with
      | some (JsonVal.str imp) =>
          imp == "critical" && decide (result.confidence ≥ (0.7 : Rat))
      | _ => false))
  ||
  (strContains condition "sender_reputation.trust_score >= 0.9" &&
    (match assocLookup email.headers "X-Sender-Trust-Score" with
     | some trustScore =>
         strContains trustScore "0.9" || strContains trustScore "1.0"
     | none => false))

/-- `resolver.resolveByHighestConfidence`: first result with strictly
greatest confidence; `none` on the empty list (Go returns a nil pointer). -/
def resolveByHighestConfidence (results : List ClassificationResponse) :
    Option ClassificationResponse :=
  results.foldl
    (fun best result =>
      match best with
      | none => some result
      | some b => if result.confidence > b.confidence then some result else some b)
    none

/-- Stable insertion into a priority-descending rule list. -/
def insertRuleDesc (r : PriorityRule) :
    List PriorityRule → List PriorityRule
  | [] => [r]
  | x :: xs =>
      if x.priority ≥ r.priority then x :: insertRuleDesc r xs
      else r :: x :: xs

/-- The `sort.Slice(rules, priority descending)` of `applyPriorityRules`,
modelled by a stable insertion sort.  (Go's `sort.Slice` leaves the order of
equal-priority rules unspecified; no claim depends on that order.) -/
def sortRulesDesc (rules : List PriorityRule) : List PriorityRule :=
  rules.foldr insertRuleDesc []

/-- `resolver.applyPriorityRules`: the first rule (in priority-descending
order) whose condition evaluates true produces an override result; otherwise
`none`. -/
def applyPriorityRules (cfg : ResolverConfig) (email : Email)
    (results : List ClassificationResponse) : Option ClassificationResponse :=
  (sortRulesDesc cfg.priorityRules).findSome? (fun rule =>
    if evaluateCondition rule.condition email results then
      let base : ClassificationResponse :=
        { profileID := "", action := rule.action, confidence := 1,
          reasoning := rule.reason, labels := [], metadata := [] }
      if rule.confidenceBoost > (0 : Rat) then
        match resolveByHighestConfidence results with
        | some highest =>
            some { base with
                     action := highest.action,
                     confidence := goMin 1 (highest.confidence + rule.confidenceBoost),
                     reasoning := highest.reasoning ++ " (boosted by " ++ rule.name ++ ")" }
        | none => some base
      else some base
    else none)

/-- `resolver.applyConfidenceWeighting`: scales each result's confidence by
its profile's configured weight (capped at 1); absent weight leaves the
result unchanged. -/
def applyConfidenceWeighting (cfg : ResolverConfig)
    (results : List ClassificationResponse) : List ClassificationResponse :=
  results.map (fun result =>
    match assocLookup cfg.confidenceWeighting.profileWeights result.profileID with
    | some w => { result with confidence := goMin 1 (result.confidence * w) }
    | none => result)

/-- Append `v` to the list stored at `k`, creating the key at the end if
absent: the model of Go's `m[k] = append(m[k], v)`. -/
def assocAppend {α : Type} (m : List (String × List α)) (k : String) (v : α) :
    List (String × List α) :=
  match m with
  | [] => [(k, [v])]
  | (k', vs) :: rest =>
      if k' = k then (k', vs ++ [v]) :: rest else (k', vs) :: assocAppend rest k v

/-- Grouping of results by action, in first-seen action order (the source
builds a Go map keyed by action; its iteration order is unspecified, and the
theorems below only use inputs on which the outcome is order-independent). -/
def groupByAction (results : List ClassificationResponse) :
    List (String × List ClassificationResponse) :=
  results.foldl (fun acc result => assocAppend acc result.action result) []

/-- `resolver.resolveByConsensus`: most-voted action (strictly-more wins,
starting from the empty action with count 0), then highest confidence within
that action's group. -/
def resolveByConsensus (results : List ClassificationResponse) :
    Option ClassificationResponse :=
  let groups := groupByAction results
  let best := groups.foldl
    (fun (st : String × Nat) g =>
      if g.2.length > st.2 then (g.1, g.2.length) else st) ("", 0)
  resolveByHighestConfidence ((assocLookup groups best.1).getD [])

/-- The profile weight used by `resolveByWeightedAverage`: configured weight
if present, default 1. -/
def weightOf (cfg : ResolverConfig) (profileID : String) : Rat :=
  match assocLookup cfg.confidenceWeighting.profileWeights profileID with
  | some w => w
  | none => 1

/-- Render a rational with two decimals, the model of Go's `%.2f`
(`%.2f` rounds half to even; the divergence at exact half-cent ties is
irrelevant to every claim, none of which inspects a formatted string). -/
def formatConf2 (q : Rat) : String :=
  let cents : Int := round (q * 100)
  let sign := if cents < 0 then "-" else ""
  let n := cents.natAbs
  sign ++ toString (n / 100) ++ "." ++
    (if n % 100 < 10 then "0" else "") ++ toString (n % 100)

/-- `resolver.combineReasonings`: join the non-empty reasonings as
`"<reasoning> (conf: <c>)"`, separated by `"; "`. -/
def combineReasonings (results : List ClassificationResponse) : String :=
  String.intercalate "; "
    ((results.filter (fun r => r.reasoning ≠ "")).map
      (fun r => r.reasoning ++ " (conf: " ++ formatConf2 r.confidence ++ ")"))

/-- First-seen-order deduplication, the model of collecting a Go
`map[string]bool` key set (whose iteration order is unspecified; the
theorems below only use inputs with at most one label). -/
def dedupFirstSeen (labels : List String) : List String :=
  labels.foldl (fun acc l => if acc.contains l then acc else acc ++ [l]) []

/-- `resolver.resolveByWeightedAverage`: group results by action, compute
each action's weight-averaged confidence, pick the action with the strictly
greatest average (starting from the empty action at 0), and merge the labels
of that action's group. -/
def resolveByWeightedAverage (cfg : ResolverConfig)
    (results : List ClassificationResponse) : ClassificationResponse :=
  let groups := groupByAction results
  let confidences : List (String × Rat) := groups.map (fun g =>
    let totalWeight := (g.2.map (fun r => weightOf cfg r.profileID)).sum
    let weightedSum := (g.2.map (fun r => r.confidence * weightOf cfg r.profileID)).sum
    (g.1, weightedSum / totalWeight))
  let best := confidences.foldl
    (fun (st : String × Rat) p => if p.2 > st.2 then p else st) ("", 0)
  let bestGroup := (assocLookup groups best.1).getD []
  { profileID := "", action := best.1, confidence := best.2,
    reasoning := combineReasonings bestGroup,
    labels := dedupFirstSeen (bestGroup.flatMap (fun r => r.labels)),
    metadata := [] }

/-- `resolver.resolveConflicts`: dispatch on the configured weighting
method; `weighted_average` is the `default`/fallthrough branch. -/
def resolveConflicts (cfg : ResolverConfig)
    (results : List ClassificationResponse) : Option ClassificationResponse :=
  match cfg.confidenceWeighting.method with
  | "highest_confidence" => resolveByHighestConfidence results
  | "consensus" => resolveByConsensus results
  | _ => some (resolveByWeightedAverage cfg results)

/-- `resolver.ResolveDecision`: error on no results, pass-through on a single
result, otherwise priority rules first and conflict resolution on the
confidence-weighted results.  (The final `none` branch corresponds to the Go
code dereferencing a nil pointer; it is unreachable for two or more results.) -/
def ResolveDecision (cfg : ResolverConfig) (email : Email)
    (results : List ClassificationResponse) :
    Except String ClassificationResponse :=
  match results with
  | [] => .error "no classification results provided"
  | [r] => .ok r
  | _ =>
      match applyPriorityRules cfg email results with
      | some priorityResult => .ok priorityResult
      | none =>
          let weighted := applyConfidenceWeighting cfg results
          match resolveConflicts cfg weighted with
          | some finalResult => .ok finalResult
          | none => .error "nil result"

/-! ## Classifier response validation (`internal/ollama/client.go`) -/

/-- `ollama.parseClassificationResponse`, starting from the decoded JSON
object (Go's `map[string]interface{}` after `json.Unmarshal`).  The raw-text
stages of the source — markdown-fence extraction, first-`{`-to-last-`}`
extraction, and the JSON decoder itself — are abstracted away: claim C6
quantifies over responses that already parse as JSON.

The source checks, in order: `action` present and a string; `confidence`
present and a number; `reasoning` a string, defaulting otherwise; confidence
within the fixed interval [0, 1]; then copies `metadata` (when a JSON
object) and the string elements of `labels` (when a JSON array).  The
formatted `%f` value in the confidence error message is omitted. -/
def parseClassificationResponse (result : List (String × JsonVal))
    (profile : Profile) : Except String ClassificationResponse :=
  match assocLookup result "action" with
  | some (JsonVal.str action) =>
      match assocLookup result "confidence" with
      | some (JsonVal.num confidence) =>
          let reasoning :=
            match assocLookup result "reasoning" with
            | some (JsonVal.str r) => r
            | _ => "No reasoning provided"
          if confidence < 0 ∨ confidence > 1 then
            .error "confidence must be between 0.0 and 1.0"
          else
            let metadata :=
              match assocLookup result "metadata" with
              | some (JsonVal.obj m) => m
              | _ => []
            let labels :=
              match assocLookup result "labels" with
              | some (JsonVal.arr ls) =>
                  ls.filterMap (fun v =>
                    match v with
                    | JsonVal.str s => some s
                    | _ => none)
              | _ => []
            .ok { profileID := profile.id, action := action,
                  confidence := confidence, reasoning := reasoning,
                  labels := labels, metadata := metadata }
      | _ => .error ("missing or invalid " ++ singleQuote ++ "confidence" ++
                     singleQuote ++ " field in response")
  | _ => .error ("missing or invalid " ++ singleQuote ++ "action" ++
                 singleQuote ++ " field in response")

/-! ## Audit chain genesis (`internal/audit/logger.go`) -/

/-- `audit.AuditEntry`.  `Timestamp` (a wall-clock `time.Time`) is carried as
its RFC3339Nano rendering, taken as a parameter where the source calls
`time.Now()`. -/
structure AuditEntry where
  id         : String
  timestamp  : String
  eventType  : String
  emailID    : String
  profileID  : String
  action     : String
  confidence : Rat
  reasoning  : String
  metadata   : List (String × JsonVal)
  prevHash   : String
  hash       : String
  signature  : String

/-- `audit.initializeChain`: the genesis entry of a fresh chain.  `hashFn`
abstracts `calculateHash` (a SHA-256 over the entry's rendered fields);
`genID` and `genTimestamp` abstract `generateID()` and `time.Now()`.  The
source fills only `ID`, `Timestamp`, `EventType`, `PrevHash` and `Metadata`;
the remaining fields keep their Go zero values. -/
def initializeChain (hashFn : AuditEntry → String)
    (genID genTimestamp : String) : AuditEntry :=
  let genesis : AuditEntry :=
    { id := genID, timestamp := genTimestamp,
      eventType := "chain_genesis",
      emailID := "", profileID := "", action := "", confidence := 0,
      reasoning := "",
      metadata := [("version", JsonVal.str "1.0"),
                   ("system", JsonVal.str "mailsentinel")],
      prevHash := "", hash := "", signature := "" }
  { genesis with hash := hashFn genesis }

/-! ## Profile loader (`internal/profile/loader.go`)

`LoadAll` walks a directory (lexical order, deterministic), YAML-decodes each
file and validates it; decoding is abstracted, so the input is the list of
decoded profile skeletons in walk order.  The loader's two map-valued
intermediates (`profiles` and `registry.Dependencies`) are iterated by Go
`range` loops whose order is randomized; those orders are the explicit
parameters `iterG` (the graph-building loop of `topologicalSort`) and `iterQ`
(the queue-initialisation loop).  A run of the Go loader corresponds to a
choice of `iterG` and `iterQ`, each some permutation of the profile ids. -/

/-- `types.ProfileRegistry`. -/
structure ProfileRegistry where
  profiles     : List (String × Profile)
  dependencies : List (String × List String)
  loadOrder    : List String
deriving DecidableEq, Repr

/-- `profile.validateProfile`.  The Go branch `len(ConfidenceRange) != 2` is
unreachable for a `[2]float64` and has no counterpart on the pair model. -/
def validateProfile (profile : Profile) : Except String Unit :=
  if profile.id = "" then .error "profile ID is required"
  else if profile.version = "" then .error "profile version is required"
  else if profile.model = "" then .error "profile model is required"
  else if profile.system = "" then .error "profile system prompt is required"
  else if profile.response.validation.confidenceRange.1 < 0 ∨
          profile.response.validation.confidenceRange.2 > 1 then
    .error "confidence range must be between 0 and 1"
  else if profile.response.validation.confidenceRange.1 ≥
          profile.response.validation.confidenceRange.2 then
    .error "confidence range minimum must be less than maximum"
  else if profile.modelParams.temperature < 0 ∨
          profile.modelParams.temperature > 2 then
    .error "temperature must be between 0 and 2"
  else if profile.modelParams.maxTokens ≤ 0 then
    .error "max_tokens must be positive"
  else if profile.modelParams.timeoutSeconds ≤ 0 then
    .error "timeout_seconds must be positive"
  else .ok ()

/-- The dependency list recorded for a profile by `buildDependencyGraph`:
the `inherits_from` edge (when set) followed by all `depends_on` edges. -/
def depsOfProfile (profile : Profile) : List String :=
  (if profile.inheritsFrom ≠ "" then [profile.inheritsFrom] else []) ++
    profile.dependsOn

/-- The edge list `(dep, dependent)` built by the first loop of
`topologicalSort`, iterating the dependency map in order `iterG`. -/
def buildEdges (iterG : List String) (deps : String → List String) :
    List (String × String) :=
  iterG.flatMap (fun id => (deps id).map (fun dep => (dep, id)))

/-- The adjacency list `adjList[u]` of `topologicalSort`: targets of the
edges out of `u`, in edge-construction order. -/
def adjOfEdges (edges : List (String × String)) (u : String) : List String :=
  (edges.filter (fun e => e.1 == u)).map (fun e => e.2)

/-- The in-degree map of `topologicalSort` after its construction loop:
the number of edges into `v`.  Go stores `int`; decrements below zero are
representable, hence `Int`. -/
def indegOfEdges (edges : List (String × String)) (v : String) : Int :=
  ((edges.filter (fun e => e.2 == v)).length : Int)

/-- The inner neighbor loop of Kahn's algorithm: decrement each neighbor's
in-degree in adjacency order, enqueuing (at the tail) any neighbor whose
in-degree reaches exactly zero. -/
def processNeighbors (adj : List String)
    (st : (String → Int) × List String) : (String → Int) × List String :=
  adj.foldl
    (fun st v =>
      let indeg := fun x => if x = v then st.1 x - 1 else st.1 x
      if indeg v = 0 then (indeg, st.2 ++ [v]) else (indeg, st.2))
    st

/-- The main queue loop of Kahn's algorithm: pop the head, append it to the
result, process its neighbors.  `fuel` bounds the iteration count; the
caller passes `ids.length + edges.length + 1`, which exceeds the greatest
possible number of enqueue events (at most one initial enqueue per id plus
at most one enqueue per edge), so the fuel never runs out before the queue
empties and the model is loop-faithful. -/
def kahnLoop (adjOf : String → List String) :
    Nat → List String → (String → Int) → List String → List String
  | 0, _, _, acc => acc
  | _ + 1, [], _, acc => acc
  | fuel + 1, current :: rest, indeg, acc =>
      let st := processNeighbors (adjOf current) (indeg, rest)
      kahnLoop adjOf fuel st.2 st.1 (acc ++ [current])

/-- `profile.topologicalSort` (Kahn's algorithm).  `ids` is the key set of
the `profiles` map; `deps` is the `registry.Dependencies` map; `iterG` and
`iterQ` are the orders in which the two Go `range` loops happen to iterate
their maps.  Errors: a dependency naming no loaded profile (detected at the
first offending edge in iteration order), or a cycle (detected as a short
result). -/
def topologicalSort (iterG iterQ : List String) (deps : String → List String)
    (ids : List String) : Except String (List String) :=
  let edges := buildEdges iterG deps
  match edges.find? (fun e => !(ids.contains e.1)) with
  | some e => .error ("dependency " ++ e.1 ++ " not found for profile " ++ e.2)
  | none =>
      let queue := iterQ.filter (fun id => indegOfEdges edges id == 0)
      let result := kahnLoop (adjOfEdges edges)
        (ids.length + edges.length + 1) queue (indegOfEdges edges) []
      if result.length = ids.length then .ok result
      else .error "circular dependency detected in profiles"

/-- `profile.mergeWithParent`.  The source mutates the child in place and
always returns a nil error; the model returns the merged child.  Note the
source merges only `Temperature`, `MaxTokens` and `TimeoutSeconds` among the
model parameters (`TopP`/`TopK` are left as the child wrote them), and uses
the Go zero value as "unset". -/
def mergeWithParent (child parent : Profile) : Profile :=
  let system :=
    if child.system = "" then parent.system
    else if parent.system ≠ "" then parent.system ++ "\n\n" ++ child.system
    else child.system
  let modelParams : ModelParams :=
    { temperature :=
        if child.modelParams.temperature = 0 then parent.modelParams.temperature
        else child.modelParams.temperature,
      maxTokens :=
        if child.modelParams.maxTokens = 0 then parent.modelParams.maxTokens
        else child.modelParams.maxTokens,
      timeoutSeconds :=
        if child.modelParams.timeoutSeconds = 0 then parent.modelParams.timeoutSeconds
        else child.modelParams.timeoutSeconds,
      topP := child.modelParams.topP,
      topK := child.modelParams.topK }
  let fewShot :=
    if parent.fewShot.length > 0 then parent.fewShot ++ child.fewShot
    else child.fewShot
  let conditions :=
    if parent.policy.conditions.length > 0 then
      parent.policy.conditions ++ child.policy.conditions
    else child.policy.conditions
  let requiredFields :=
    if child.response.validation.requiredFields.length = 0 then
      parent.response.validation.requiredFields
    else child.response.validation.requiredFields
  let confidenceRange :=
    if child.response.validation.confidenceRange.1 = 0 ∧
       child.response.validation.confidenceRange.2 = 0 then
      parent.response.validation.confidenceRange
    else child.response.validation.confidenceRange
  { child with
      system := system,
      modelParams := modelParams,
      fewShot := fewShot,
      policy := { conditions := conditions },
      response := { child.response with
                      validation := { child.response.validation with
                                        requiredFields := requiredFields,
                                        confidenceRange := confidenceRange } } }

/-- `profile.resolveInheritance`: walk the load order; for each profile with
a parent, merge and store back.  (An id absent from the map cannot occur for
an order produced by `topologicalSort`; the Go code would dereference nil.) -/
def resolveInheritance (order : List String)
    (profiles : List (String × Profile)) :
    Except String (List (String × Profile)) :=
  order.foldlM
    (fun m id =>
      match assocLookup m id with
      | none => .ok m
      | some profile =>
          if profile.inheritsFrom = "" then .ok m
          else
            match assocLookup m profile.inheritsFrom with
            | none => .error ("parent profile " ++ profile.inheritsFrom ++
                              " not found for " ++ id)
            | some parent =>
                .ok (assocSet m id (mergeWithParent profile parent)))
    profiles

/-- The `profiles` map after `LoadAll`'s first loop: decoded files whose
validation succeeds, keyed by id (later files replace earlier ids). -/
def buildProfileMap (files : List Profile) : List (String × Profile) :=
  (files.filter (fun p => (validateProfile p).isOk)).foldl
    (fun m p => assocSet m p.id p) []

/-- The key set of the loaded profile map, in insertion order. -/
def profileIds (files : List Profile) : List String :=
  (buildProfileMap files).map (fun kv => kv.1)

/-- The `registry.Dependencies` map as a function. -/
def depsFunOf (profiles : List (String × Profile)) : String → List String :=
  fun id =>
    match assocLookup profiles id with
    | some p => depsOfProfile p
    | none => []

/-- `profile.LoadAll` over the decoded directory contents `files`:
load-and-validate (invalid files are logged and skipped), build the
dependency graph and the topological load order, resolve inheritance in that
order, and return the registry.  On a graph or inheritance error the whole
load fails and no registry is produced (the Go loader leaves its registry
cleared). -/
def LoadAll (iterG iterQ : List String) (files : List Profile) :
    Except String ProfileRegistry :=
  let profMap := buildProfileMap files
  let ids := profMap.map (fun kv => kv.1)
  let deps := depsFunOf profMap
  match topologicalSort iterG iterQ deps ids with
  | .error e => .error ("failed to build dependency graph: " ++ e)
  | .ok order =>
      match resolveInheritance order profMap with
      | .error e => .error ("failed to resolve inheritance: " ++ e)
      | .ok merged =>
          .ok { profiles := merged,
                dependencies := profMap.map (fun kv => (kv.1, depsOfProfile kv.2)),
                loadOrder := order }

/-! ## Concrete fixtures used by the theorems -/

/-- A resolver configuration with no priority rules, no profile weights and
the default (`weighted_average`) method. -/
def resolverDemoCfg : ResolverConfig :=
  { version := "1.0", priorityRules := [],
    confidenceWeighting := { method := "weighted_average", profileWeights := [] },
    conflictResolution := [] }

/-- A minimal email (the resolver reads only `ID` and `Headers`). -/
def demoEmail : Email := { id := "msg-1", headers := [] }

/-- A classification response with empty reasoning, labels and metadata. -/
def mkResp (pid act : String) (conf : Rat) : ClassificationResponse :=
  { profileID := pid, action := act, confidence := conf, reasoning := "",
    labels := [], metadata := [] }

/-- A valid loadable profile skeleton with the given id, parent and
dependencies. -/
def mkLoadProfile (id inh : String) (deps : List String) : Profile :=
  { id := id, version := "1.0.0", inheritsFrom := inh, dependsOn := deps,
    conditionalExecution := none, model := "qwen2.5:7b",
    modelParams := { temperature := 0.1, maxTokens := 1000,
                     timeoutSeconds := 30, topP := 0, topK := 0 },
    response := { schema := "",
                  validation := { requiredFields := ["action"],
                                  confidenceRange := (0, 1),
                                  allowedActions := [] } },
    system := "base system", fewShot := [], policy := { conditions := [] } }

/-! ## Claims -/

/-- C10: for every email, a single-element result list is returned unchanged
by `ResolveDecision` (priority rules, confidence weighting and conflict
resolution are skipped), and the empty result list is an error. -/
theorem C10_single_result_passthrough (cfg : ResolverConfig) (email : Email)
    (r : ClassificationResponse) :
    ResolveDecision cfg email [r] = Except.ok r ∧
      ResolveDecision cfg email [] =
        Except.error "no classification results provided" :=
  ⟨rfl, rfl⟩

/-- C9 counterexample: the first entry of a fresh audit chain does NOT carry
event type `genesis`; `initializeChain` writes `chain_genesis`. -/
theorem C9_counterexample :
    (initializeChain (fun _ => "") "1" "2025-01-01T00:00:00Z").eventType ≠
      "genesis" := by
  decide

/-- C9 amended: for every newly created audit chain, the genesis entry has
`prev_hash = ""` and event type `chain_genesis` (not `genesis`). -/
theorem C9_genesis_entry (hashFn : AuditEntry → String) (genID ts : String) :
    (initializeChain hashFn genID ts).prevHash = "" ∧
      (initializeChain hashFn genID ts).eventType = "chain_genesis" :=
  ⟨rfl, rfl⟩

/-- C3: the inheritance merge concatenates system prompts (parent, blank
line, child) when both are non-empty; each merged model parameter
(temperature, max tokens, timeout — the parameters of the data model) is the
child's value iff the child set it (Go zero value = unset) and the parent's
otherwise; and the few-shot and policy-condition lists are the parent's
followed by the child's, in order. -/
theorem C3_inheritance_merge (child parent : Profile)
    (hc : child.system ≠ "") (hp : parent.system ≠ "") :
    (mergeWithParent child parent).system =
        parent.system ++ "\n\n" ++ child.system ∧
    (mergeWithParent child parent).modelParams.temperature =
        (if child.modelParams.temperature ≠ 0 then child.modelParams.temperature
         else parent.modelParams.temperature) ∧
    (mergeWithParent child parent).modelParams.maxTokens =
        (if child.modelParams.maxTokens ≠ 0 then child.modelParams.maxTokens
         else parent.modelParams.maxTokens) ∧
    (mergeWithParent child parent).modelParams.timeoutSeconds =
        (if child.modelParams.timeoutSeconds ≠ 0 then child.modelParams.timeoutSeconds
         else parent.modelParams.timeoutSeconds) ∧
    (mergeWithParent child parent).fewShot = parent.fewShot ++ child.fewShot ∧
    (mergeWithParent child parent).policy.conditions =
        parent.policy.conditions ++ child.policy.conditions := by
  unfold mergeWithParent
  refine ⟨by simp [hc, hp], ?_, ?_, ?_, ?_, ?_⟩
  · by_cases h : child.modelParams.temperature = 0 <;> simp [h]
  · by_cases h : child.modelParams.maxTokens = 0 <;> simp [h]
  · by_cases h : child.modelParams.timeoutSeconds = 0 <;> simp [h]
  · by_cases h : parent.fewShot = [] <;> simp [h, List.length_pos]
  · by_cases h : parent.policy.conditions = [] <;> simp [h, List.length_pos]

/-- Fixture parent for the C3 witness. -/
def c3Parent : Profile :=
  { mkLoadProfile "parent" "" [] with
      system := "Parent system prompt",
      modelParams := { temperature := 0.2, maxTokens := 500,
                       timeoutSeconds := 20, topP := 0, topK := 0 },
      fewShot := [{ name := "parent_example", input := "pi", output := "po" }],
      policy := { conditions := [{ name := "parent_condition",
                                   expression := "confidence > 0.8",
                                   actions := [], priority := 0 }] } }

/-- Fixture child for the C3 witness: overrides temperature, inherits max
tokens and timeout. -/
def c3Child : Profile :=
  { mkLoadProfile "child" "parent" [] with
      system := "Child system prompt",
      modelParams := { temperature := 0.1, maxTokens := 0,
                       timeoutSeconds := 0, topP := 0, topK := 0 },
      fewShot := [{ name := "child_example", input := "ci", output := "co" }],
      policy := { conditions := [{ name := "child_condition",
                                   expression := "confidence > 0.5",
                                   actions := [], priority := 0 }] } }

unseal Rat.add Rat.mul Rat.inv Rat.ofScientific in
/-- Witness for C3 at the fixture parent/child. -/
theorem C3_inheritance_merge_witness :
    c3Child.system ≠ "" ∧ c3Parent.system ≠ "" ∧
    ((mergeWithParent c3Child c3Parent).system =
        c3Parent.system ++ "\n\n" ++ c3Child.system ∧
     (mergeWithParent c3Child c3Parent).modelParams.temperature =
        (if c3Child.modelParams.temperature ≠ 0 then c3Child.modelParams.temperature
         else c3Parent.modelParams.temperature) ∧
     (mergeWithParent c3Child c3Parent).modelParams.maxTokens =
        (if c3Child.modelParams.maxTokens ≠ 0 then c3Child.modelParams.maxTokens
         else c3Parent.modelParams.maxTokens) ∧
     (mergeWithParent c3Child c3Parent).modelParams.timeoutSeconds =
        (if c3Child.modelParams.timeoutSeconds ≠ 0 then c3Child.modelParams.timeoutSeconds
         else c3Parent.modelParams.timeoutSeconds) ∧
     (mergeWithParent c3Child c3Parent).fewShot =
        c3Parent.fewShot ++ c3Child.fewShot ∧
     (mergeWithParent c3Child c3Parent).policy.conditions =
        c3Parent.policy.conditions ++ c3Child.policy.conditions) :=
  ⟨by decide, by decide,
   C3_inheritance_merge c3Child c3Parent (by decide) (by decide)⟩

unseal Rat.add Rat.mul Rat.inv Rat.ofScientific in
/-- C1 (code bug): with no priority rule fired, a winning `archive` whose
confidence 0.5 is below the documented archive gate 0.85 is emitted as
`archive`, not demoted to `none` — the resolver implements no safety gate. -/
theorem C1_gate_missing :
    ResolveDecision resolverDemoCfg demoEmail
        [mkResp "spam" "archive" 0.5, mkResp "promotions" "archive" 0.5] =
      Except.ok (mkResp "" "archive" 0.5) ∧
    (0.5 : Rat) < 0.85 ∧ "archive" ≠ "none" := by
  refine ⟨rfl, by norm_num, by decide⟩

unseal Rat.add Rat.mul Rat.inv Rat.ofScientific in
/-- C5 (code bug): with archive at 0.86 and star at 0.80 — a margin of 0.06,
below the documented 0.2 star-protection margin — the resolver emits
`archive`, not `star`: it picks the greatest weighted-average confidence and
implements no star/archive mutual-exclusion rule. -/
theorem C5_archive_beats_star :
    ResolveDecision resolverDemoCfg demoEmail
        [mkResp "spam" "archive" 0.86, mkResp "work_priority" "star" 0.80] =
      Except.ok (mkResp "" "archive" 0.86) ∧
    (0.86 : Rat) - 0.80 < 0.2 := by
  refine ⟨rfl, by norm_num⟩

/-- Fixture profile for C6: three required fields, a closed action set, and
a narrowed confidence range. -/
def c6Profile : Profile :=
  { mkLoadProfile "spam" "" [] with
      response := { schema := "",
                    validation := { requiredFields :=
                                      ["action", "confidence", "category"],
                                    confidenceRange := (0.2, 0.9),
                                    allowedActions := ["none", "star"] } } }

/-- Fixture decoded response for C6: misses the required `category` field,
uses an action outside the allowed set, and a confidence outside the
profile's range. -/
def c6Response : List (String × JsonVal) :=
  [("action", JsonVal.str "bogus"), ("confidence", JsonVal.num 0.95)]

unseal Rat.add Rat.mul Rat.inv Rat.ofScientific in
/-- C6 (code bug): `parseClassificationResponse` accepts a response that
violates every profile-level validation rule — a required field is missing,
the action is outside the allowed set, and the confidence is outside the
profile's range — because the source checks only that `action` is a string
and `confidence` is a number in the fixed interval [0, 1]. -/
theorem C6_validation_ignores_profile :
    parseClassificationResponse c6Response c6Profile =
      Except.ok { profileID := "spam", action := "bogus", confidence := 0.95,
                  reasoning := "No reasoning provided", labels := [],
                  metadata := [] } ∧
    "category" ∈ c6Profile.response.validation.requiredFields ∧
    assocLookup c6Response "category" = none ∧
    "bogus" ∉ c6Profile.response.validation.allowedActions ∧
    ¬((0.95 : Rat) ≤ (c6Profile.response.validation.confidenceRange).2) := by
  refine ⟨rfl, by decide, rfl, by decide, by norm_num [c6Profile, mkLoadProfile]⟩

unseal Rat.add Rat.mul Rat.inv Rat.ofScientific in
/-- C2 (code bug): a two-profile dependency cycle (`cyc_a` ↔ `cyc_b`) makes
`LoadAll` fail as a whole — the independent profile `solo` is not loaded
either, although the claim (and the repository's own failure-mode
documentation) requires quarantining only the cycle. -/
theorem C2_cycle_aborts_load :
    LoadAll ["cyc_a", "cyc_b", "solo"] ["cyc_a", "cyc_b", "solo"]
        [mkLoadProfile "cyc_a" "" ["cyc_b"],
         mkLoadProfile "cyc_b" "" ["cyc_a"],
         mkLoadProfile "solo" "" []] =
      Except.error
        "failed to build dependency graph: circular dependency detected in profiles" := by
  rfl

unseal Rat.add Rat.mul Rat.inv Rat.ofScientific in
/-- C7 (code bug): a single profile naming a missing dependency (`ghost`)
makes `LoadAll` fail as a whole — the independent profile `innocent` is not
loaded either, although the claim requires quarantining only the dependent
profile. -/
theorem C7_missing_dep_aborts_load :
    LoadAll ["needy", "innocent"] ["needy", "innocent"]
        [mkLoadProfile "needy" "" ["ghost"],
         mkLoadProfile "innocent" "" []] =
      Except.error
        "failed to build dependency graph: dependency ghost not found for profile needy" := by
  rfl

/-! ## Correctness of the loader's topological sort

Auxiliary counting notions for the Kahn-loop invariant.  `countInto edges acc v`
is the number of edges into `v` whose source has not yet been popped
(`acc` is the list of popped nodes, in pop order); `edgeCnt edges u v` is the
multiplicity of the edge `u → v`. -/

/-- Number of edges into `v` from sources outside `acc`. -/
def countInto (edges : List (String × String)) (acc : List String)
    (v : String) : Nat :=
  List.countP (fun e => decide (e.2 = v ∧ e.1 ∉ acc)) edges

/-- Multiplicity of the edge `u → v` in the edge list. -/
def edgeCnt (edges : List (String × String)) (u v : String) : Nat :=
  List.countP (fun e => decide (e.1 = u ∧ e.2 = v)) edges

theorem countInto_nil_eq (edges : List (String × String)) (v : String) :
    (indegOfEdges edges v : Int) = (countInto edges [] v : Int) := by
  unfold indegOfEdges countInto
  rw [← List.countP_eq_length_filter]
  congr 1
  refine List.countP_congr fun e _ => ?_
  simp

theorem countInto_append_single
    (edges : List (String × String)) (acc : List String) (u : String)
    (hu : u ∉ acc) (v : String) :
    countInto edges acc v = countInto edges (acc ++ [u]) v + edgeCnt edges u v := by
  induction edges with
  | nil => rfl
  | cons e es ih =>
      unfold countInto edgeCnt at ih ⊢
      rw [List.countP_cons, List.countP_cons, List.countP_cons, ih]
      simp only [decide_eq_true_eq]
      have hmemu : u ∈ acc ++ [u] := List.mem_append_right acc (by simp)
      have hP1iff : (e.2 = v ∧ e.1 ∉ acc) ↔
          ((e.2 = v ∧ e.1 ∉ acc ++ [u]) ∨ (e.1 = u ∧ e.2 = v)) := by
        constructor
        · rintro ⟨h2, hna⟩
          by_cases h1u : e.1 = u
          · exact Or.inr ⟨h1u, h2⟩
          · refine Or.inl ⟨h2, fun hm => ?_⟩
            rcases List.mem_append.1 hm with hm | hm
            · exact hna hm
            · exact h1u (by simpa using hm)
        · rintro (⟨h2, hna⟩ | ⟨h1u, h2⟩)
          · exact ⟨h2, fun hm => hna (List.mem_append_left _ hm)⟩
          · exact ⟨h2, h1u ▸ hu⟩
      by_cases hP2 : e.2 = v ∧ e.1 ∉ acc ++ [u] <;>
        by_cases hP3 : e.1 = u ∧ e.2 = v
      · exact absurd (hP3.1 ▸ hmemu) hP2.2
      · rw [if_pos (hP1iff.2 (Or.inl hP2)), if_pos hP2, if_neg hP3]
        omega
      · rw [if_pos (hP1iff.2 (Or.inr hP3)), if_neg hP2, if_pos hP3]
        omega
      · rw [if_neg (fun h => (hP1iff.1 h).elim hP2 hP3), if_neg hP2, if_neg hP3]
        omega

theorem count_adjOfEdges (edges : List (String × String)) (u v : String) :
    (adjOfEdges edges u).count v = edgeCnt edges u v := by
  induction edges with
  | nil => rfl
  | cons e es ih =>
      unfold adjOfEdges edgeCnt at ih ⊢
      rw [List.filter_cons, List.countP_cons]
      by_cases h1 : e.1 = u
      · rw [if_pos (by simp [h1]), List.map_cons, List.count_cons, ih]
        by_cases h2 : e.2 = v
        · rw [if_pos (by simp [h2]), if_pos (by simp [h1, h2])]
        · rw [if_neg (by simp [h2]), if_neg (by simp [h2])]
      · rw [if_neg (by simp [h1]), ih, if_neg (by simp [h1])]
        omega

theorem countInto_eq_zero_iff (edges : List (String × String))
    (acc : List String) (u : String) :
    countInto edges acc u = 0 ↔ ∀ e ∈ edges, e.2 = u → e.1 ∈ acc := by
  unfold countInto
  rw [List.countP_eq_zero]
  constructor
  · intro h e he h2
    have := h e he
    simp only [decide_eq_true_eq] at this
    by_contra hmem
    exact this ⟨h2, hmem⟩
  · intro h e he
    simp only [decide_eq_true_eq]
    rintro ⟨h2, hmem⟩
    exact hmem (h e he h2)

theorem mem_adjOfEdges {edges : List (String × String)} {u v : String}
    (h : v ∈ adjOfEdges edges u) : (u, v) ∈ edges := by
  unfold adjOfEdges at h
  obtain ⟨e, he, rfl⟩ := List.mem_map.1 h
  have := List.mem_filter.1 he
  obtain ⟨hmem, hpred⟩ := this
  have : e.1 = u := by simpa using hpred
  have : e = (u, e.2) := by
    cases e; simp_all
  rw [← this]; exact hmem

theorem processNeighbors_cons (v₀ : String) (adj : List String)
    (indeg : String → Int) (queue : List String) :
    processNeighbors (v₀ :: adj) (indeg, queue) =
      (if (fun x => if x = v₀ then indeg x - 1 else indeg x) v₀ = 0 then
        processNeighbors adj
          ((fun x => if x = v₀ then indeg x - 1 else indeg x), queue ++ [v₀])
      else
        processNeighbors adj
          ((fun x => if x = v₀ then indeg x - 1 else indeg x), queue)) := by
  by_cases h : (fun x => if x = v₀ then indeg x - 1 else indeg x) v₀ = 0
  · rw [if_pos h]
    show processNeighbors adj
      (if (fun x => if x = v₀ then indeg x - 1 else indeg x) v₀ = 0 then _ else _) = _
    rw [if_pos h]
  · rw [if_neg h]
    show processNeighbors adj
      (if (fun x => if x = v₀ then indeg x - 1 else indeg x) v₀ = 0 then _ else _) = _
    rw [if_neg h]

/-- Invariant preservation through the neighbor-decrement loop: starting from
an in-degree map that counts unpopped-source edges plus the remaining
adjacency occurrences, the loop ends with the in-degree map counting exactly
the unpopped-source edges, and every queued node has in-degree zero, is not
yet popped, and is a known id. -/
theorem processNeighbors_spec
    (edges : List (String × String)) (ids : List String)
    (acc : List String) (u : String) (hu : u ∉ acc)
    (htargets : ∀ e ∈ edges, e.2 ∈ ids)
    (hI3 : ∀ e ∈ edges, e.2 ∈ acc ++ [u] →
      (acc ++ [u]).indexOf e.1 < (acc ++ [u]).indexOf e.2) :
    ∀ (adj : List String) (indeg : String → Int) (queue : List String),
      (∀ v ∈ adj, (u, v) ∈ edges) →
      (∀ v, indeg v = (countInto edges (acc ++ [u]) v : Int) + adj.count v) →
      (∀ v ∈ queue, indeg v = 0) →
      queue.Nodup →
      (∀ v ∈ queue, v ∉ acc ++ [u]) →
      (∀ v ∈ queue, v ∈ ids) →
      (∀ v, (processNeighbors adj (indeg, queue)).1 v =
        (countInto edges (acc ++ [u]) v : Int)) ∧
      (∀ v ∈ (processNeighbors adj (indeg, queue)).2,
        (processNeighbors adj (indeg, queue)).1 v = 0) ∧
      (processNeighbors adj (indeg, queue)).2.Nodup ∧
      (∀ v ∈ (processNeighbors adj (indeg, queue)).2, v ∉ acc ++ [u]) ∧
      (∀ v ∈ (processNeighbors adj (indeg, queue)).2, v ∈ ids) := by
  intro adj
  induction adj with
  | nil =>
      intro indeg queue hadj hJ1 hJ2 hqn hqa hqi
      exact ⟨fun v => by simpa using hJ1 v, hJ2, hqn, hqa, hqi⟩
  | cons v₀ adj ih =>
      intro indeg queue hadj hJ1 hJ2 hqn hqa hqi
      have hv₀edge : (u, v₀) ∈ edges := hadj v₀ (List.mem_cons_self _ _)
      have hv₀ids : v₀ ∈ ids := htargets _ hv₀edge
      have hcnt : ((v₀ :: adj).count v₀ : Int) = (adj.count v₀ : Int) + 1 := by
        rw [List.count_cons_self]; push_cast; ring
      have hv₀notqueue : v₀ ∉ queue := by
        intro hmem
        have h0 := hJ2 v₀ hmem
        have h1 := hJ1 v₀
        rw [hcnt] at h1
        omega
      have hJ1v₀ := hJ1 v₀
      rw [hcnt] at hJ1v₀
      have hJ1' : ∀ v, (fun x => if x = v₀ then indeg x - 1 else indeg x) v =
          (countInto edges (acc ++ [u]) v : Int) + adj.count v := by
        intro v
        by_cases hv : v = v₀
        · subst hv
          show (if v = v then indeg v - 1 else indeg v) = _
          rw [if_pos rfl]
          omega
        · show (if v = v₀ then indeg v - 1 else indeg v) = _
          rw [if_neg hv]
          have := hJ1 v
          rw [List.count_cons_of_ne hv] at this
          exact this
      rw [processNeighbors_cons]
      by_cases h0 : (fun x => if x = v₀ then indeg x - 1 else indeg x) v₀ = 0
      · rw [if_pos h0]
        -- v₀ is enqueued
        have hv₀notacc : v₀ ∉ acc ++ [u] := by
          intro hmem
          have hlt : (acc ++ [u]).indexOf u < (acc ++ [u]).indexOf v₀ :=
            hI3 (u, v₀) hv₀edge hmem
          have hidxu : (acc ++ [u]).indexOf u = acc.length := by
            rw [List.indexOf_append_of_not_mem hu, List.indexOf_cons_self]
            omega
          have hidxv : (acc ++ [u]).indexOf v₀ < acc.length + 1 := by
            have := List.indexOf_lt_length.2 hmem
            simpa using this
          omega
        refine ih (fun x => if x = v₀ then indeg x - 1 else indeg x)
          (queue ++ [v₀]) (fun v hv => hadj v (List.mem_cons_of_mem _ hv)) hJ1'
          ?_ ?_ ?_ ?_
        · intro v hv
          rcases List.mem_append.1 hv with hv | hv
          · have hne : v ≠ v₀ := fun h => hv₀notqueue (h ▸ hv)
            show (if v = v₀ then indeg v - 1 else indeg v) = 0
            rw [if_neg hne]
            exact hJ2 v hv
          · have : v = v₀ := by simpa using hv
            subst this
            exact h0
        · rw [List.nodup_append]
          refine ⟨hqn, List.nodup_singleton _, fun a ha hb => ?_⟩
          have : a = v₀ := by simpa using hb
          exact hv₀notqueue (this ▸ ha)
        · intro v hv
          rcases List.mem_append.1 hv with hv | hv
          · exact hqa v hv
          · have : v = v₀ := by simpa using hv
            exact this ▸ hv₀notacc
        · intro v hv
          rcases List.mem_append.1 hv with hv | hv
          · exact hqi v hv
          · have : v = v₀ := by simpa using hv
            exact this ▸ hv₀ids
      · rw [if_neg h0]
        refine ih (fun x => if x = v₀ then indeg x - 1 else indeg x)
          queue (fun v hv => hadj v (List.mem_cons_of_mem _ hv)) hJ1'
          ?_ hqn hqa hqi
        intro v hv
        have hne : v ≠ v₀ := fun h => hv₀notqueue (h ▸ hv)
        show (if v = v₀ then indeg v - 1 else indeg v) = 0
        rw [if_neg hne]
        exact hJ2 v hv

theorem kahnLoop_cons (adjOf : String → List String) (fuel : Nat)
    (u : String) (rest : List String) (indeg : String → Int)
    (acc : List String) :
    kahnLoop adjOf (fuel + 1) (u :: rest) indeg acc =
      kahnLoop adjOf fuel (processNeighbors (adjOf u) (indeg, rest)).2
        (processNeighbors (adjOf u) (indeg, rest)).1 (acc ++ [u]) := rfl

/-- Invariant preservation through the Kahn queue loop: the produced order
has no duplicates, stays within the known ids, and places the source of
every edge strictly before its target whenever the target occurs. -/
theorem kahnLoop_spec
    (edges : List (String × String)) (ids : List String)
    (htargets : ∀ e ∈ edges, e.2 ∈ ids) :
    ∀ (fuel : Nat) (queue : List String) (indeg : String → Int)
      (acc : List String),
      (∀ v, indeg v = (countInto edges acc v : Int)) →
      (∀ v ∈ queue, indeg v = 0) →
      queue.Nodup →
      (∀ v ∈ queue, v ∉ acc) →
      (∀ v ∈ queue, v ∈ ids) →
      (∀ v ∈ acc, v ∈ ids) →
      acc.Nodup →
      (∀ e ∈ edges, e.2 ∈ acc → acc.indexOf e.1 < acc.indexOf e.2) →
      (kahnLoop (adjOfEdges edges) fuel queue indeg acc).Nodup ∧
      (∀ v ∈ kahnLoop (adjOfEdges edges) fuel queue indeg acc, v ∈ ids) ∧
      (∀ e ∈ edges, e.2 ∈ kahnLoop (adjOfEdges edges) fuel queue indeg acc →
        (kahnLoop (adjOfEdges edges) fuel queue indeg acc).indexOf e.1 <
        (kahnLoop (adjOfEdges edges) fuel queue indeg acc).indexOf e.2) := by
  intro fuel
  induction fuel with
  | zero =>
      intro queue indeg acc hJ1 hJ2 hqn hqa hqi hai han hI3
      exact ⟨han, hai, hI3⟩
  | succ fuel ih =>
      intro queue indeg acc hJ1 hJ2 hqn hqa hqi hai han hI3
      cases queue with
      | nil => exact ⟨han, hai, hI3⟩
      | cons u rest =>
          have hu_noacc : u ∉ acc := hqa u (List.mem_cons_self _ _)
          have hu_ids : u ∈ ids := hqi u (List.mem_cons_self _ _)
          have hcnt0 : countInto edges acc u = 0 := by
            have h2 := hJ2 u (List.mem_cons_self _ _)
            have h1 := hJ1 u
            omega
          have hsrc : ∀ e ∈ edges, e.2 = u → e.1 ∈ acc :=
            (countInto_eq_zero_iff edges acc u).1 hcnt0
          have hI3' : ∀ e ∈ edges, e.2 ∈ acc ++ [u] →
              (acc ++ [u]).indexOf e.1 < (acc ++ [u]).indexOf e.2 := by
            intro e he hmem
            rcases List.mem_append.1 hmem with hmem | hmem
            · have hlt := hI3 e he hmem
              have he2len : acc.indexOf e.2 < acc.length :=
                List.indexOf_lt_length.2 hmem
              have he1mem : e.1 ∈ acc :=
                List.indexOf_lt_length.1 (lt_trans hlt he2len)
              rw [List.indexOf_append_of_mem he1mem,
                List.indexOf_append_of_mem hmem]
              exact hlt
            · have he2u : e.2 = u := by simpa using hmem
              have he1 : e.1 ∈ acc := hsrc e he he2u
              have hlt : acc.indexOf e.1 < acc.length :=
                List.indexOf_lt_length.2 he1
              rw [List.indexOf_append_of_mem he1, he2u,
                List.indexOf_append_of_not_mem hu_noacc,
                List.indexOf_cons_self]
              omega
          have han' : (acc ++ [u]).Nodup := by
            rw [List.nodup_append]
            refine ⟨han, List.nodup_singleton _, fun a ha hb => ?_⟩
            have : a = u := by simpa using hb
            exact hu_noacc (this ▸ ha)
          have hJ1fold : ∀ v, indeg v =
              (countInto edges (acc ++ [u]) v : Int) +
                (adjOfEdges edges u).count v := by
            intro v
            rw [hJ1 v, countInto_append_single edges acc u hu_noacc v,
              count_adjOfEdges]
            push_cast
            ring
          have hqn' : rest.Nodup := (List.nodup_cons.1 hqn).2
          have hu_notrest : u ∉ rest := (List.nodup_cons.1 hqn).1
          have hrest_noacc' : ∀ v ∈ rest, v ∉ acc ++ [u] := by
            intro v hv hmem
            rcases List.mem_append.1 hmem with hmem | hmem
            · exact hqa v (List.mem_cons_of_mem _ hv) hmem
            · have : v = u := by simpa using hmem
              exact hu_notrest (this ▸ hv)
          obtain ⟨pJ1, pJ2, pqn, pqa, pqi⟩ :=
            processNeighbors_spec edges ids acc u hu_noacc htargets hI3'
              (adjOfEdges edges u) indeg rest
              (fun v hv => mem_adjOfEdges hv)
              hJ1fold
              (fun v hv => hJ2 v (List.mem_cons_of_mem _ hv))
              hqn' hrest_noacc'
              (fun v hv => hqi v (List.mem_cons_of_mem _ hv))
          rw [kahnLoop_cons]
          refine ih _ _ _ pJ1 pJ2 pqn pqa pqi ?_ han' hI3'
          intro v hv
          rcases List.mem_append.1 hv with hv | hv
          · exact hai v hv
          · have : v = u := by simpa using hv
            exact this ▸ hu_ids

theorem mem_buildEdges_target {iterG : List String}
    {deps : String → List String} {e : String × String}
    (h : e ∈ buildEdges iterG deps) : e.2 ∈ iterG := by
  unfold buildEdges at h
  obtain ⟨id, hid, hmem⟩ := List.mem_flatMap.1 h
  obtain ⟨d, _, heq⟩ := List.mem_map.1 hmem
  rw [← heq]
  exact hid

theorem mem_buildEdges_of {iterG : List String} {deps : String → List String}
    {d p : String} (hp : p ∈ iterG) (hd : d ∈ deps p) :
    (d, p) ∈ buildEdges iterG deps := by
  unfold buildEdges
  exact List.mem_flatMap.2 ⟨p, hp, List.mem_map.2 ⟨d, hd, rfl⟩⟩

/-- Soundness of the embedded `topologicalSort`: whenever it returns an
order, that order is a permutation of the ids, has no duplicates, and places
the source of every built edge strictly before its target. -/
theorem topologicalSort_ok
    (iterG iterQ : List String) (deps : String → List String)
    (ids : List String) (order : List String)
    (hQn : iterQ.Nodup)
    (hGsub : ∀ x ∈ iterG, x ∈ ids)
    (hQsub : ∀ x ∈ iterQ, x ∈ ids)
    (h : topologicalSort iterG iterQ deps ids = Except.ok order) :
    order.Perm ids ∧ order.Nodup ∧
      (∀ e ∈ buildEdges iterG deps, e.2 ∈ order →
        order.indexOf e.1 < order.indexOf e.2) := by
  have htargets : ∀ e ∈ buildEdges iterG deps, e.2 ∈ ids :=
    fun e he => hGsub e.2 (mem_buildEdges_target he)
  obtain ⟨rn, rids, rI3⟩ :=
    kahnLoop_spec (buildEdges iterG deps) ids htargets
      (ids.length + (buildEdges iterG deps).length + 1)
      (iterQ.filter
        (fun id => indegOfEdges (buildEdges iterG deps) id == 0))
      (indegOfEdges (buildEdges iterG deps)) []
      (fun v => countInto_nil_eq (buildEdges iterG deps) v)
      (fun v hv => by simpa using (List.of_mem_filter hv))
      (hQn.filter _)
      (fun v _ => List.not_mem_nil v)
      (fun v hv => hQsub v (List.mem_of_mem_filter hv))
      (fun v hv => absurd hv (List.not_mem_nil v))
      List.nodup_nil
      (fun e _ h2 => absurd h2 (List.not_mem_nil e.2))
  unfold topologicalSort at h
  simp only [] at h
  split at h
  · simp at h
  · split at h
    case h_2.isTrue hlen =>
        have horder : kahnLoop (adjOfEdges (buildEdges iterG deps))
            (ids.length + (buildEdges iterG deps).length + 1)
            (iterQ.filter
              (fun id => indegOfEdges (buildEdges iterG deps) id == 0))
            (indegOfEdges (buildEdges iterG deps)) [] = order := by
          injection h
        rw [horder] at rn rids rI3 hlen
        have hsub : order ⊆ ids := fun x hx => rids x hx
        have hperm : order.Perm ids :=
          (List.subperm_of_subset rn hsub).perm_of_length_le
            (le_of_eq hlen.symm)
        exact ⟨hperm, rn, rI3⟩
    case h_2.isFalse => simp at h

theorem assocSet_keys {α : Type} (m : List (String × α)) (k : String) (v : α) :
    (assocSet m k v).map Prod.fst =
      if k ∈ m.map Prod.fst then m.map Prod.fst
      else m.map Prod.fst ++ [k] := by
  induction m with
  | nil => simp [assocSet]
  | cons p rest ih =>
      by_cases hk : p.1 = k
      · rw [if_pos (by simp [hk])]
        unfold assocSet
        rw [if_pos hk]
        simp [hk]
      · unfold assocSet
        rw [if_neg hk]
        by_cases hk2 : k ∈ rest.map Prod.fst
        · rw [if_pos (by simp [hk2])]
          simp only [List.map_cons]
          rw [ih, if_pos hk2]
        · have hnot : ¬ k ∈ List.map Prod.fst (p :: rest) := by
            simp only [List.map_cons, List.mem_cons]
            push_neg
            exact ⟨fun h => hk h.symm, hk2⟩
          rw [if_neg hnot]
          simp only [List.map_cons]
          rw [ih, if_neg hk2]
          simp

theorem profileIds_nodup (files : List Profile) : (profileIds files).Nodup := by
  unfold profileIds buildProfileMap
  generalize (files.filter fun p => (validateProfile p).isOk) = fs
  suffices h : ∀ (m : List (String × Profile)), (m.map Prod.fst).Nodup →
      ((fs.foldl (fun m p => assocSet m p.id p) m).map Prod.fst).Nodup by
    have := h [] (by simp)
    simpa [Function.comp] using this
  induction fs with
  | nil => intro m hm; simpa using hm
  | cons p rest ih =>
      intro m hm
      rw [List.foldl_cons]
      refine ih _ ?_
      rw [assocSet_keys]
      split
      · exact hm
      · rw [List.nodup_append]
        refine ⟨hm, List.nodup_singleton _, fun a ha hb => ?_⟩
        have : a = p.id := by simpa using hb
        subst this
        next hnot => exact hnot ha

theorem LoadAll_ok_loadOrder {iterG iterQ : List String}
    {files : List Profile} {reg : ProfileRegistry}
    (h : LoadAll iterG iterQ files = Except.ok reg) :
    topologicalSort iterG iterQ (depsFunOf (buildProfileMap files))
      (profileIds files) = Except.ok reg.loadOrder := by
  unfold LoadAll at h
  simp only [] at h
  split at h
  · simp at h
  · rename_i order heq
    split at h
    · simp at h
    · rename_i merged heq2
      injection h with h'
      rw [← h']
      exact heq

/-- The dependency-edge relation of a loaded profile set: `d` is a declared
dependency (`inherits_from` or `depends_on`) of the loaded profile `p`. -/
def depRelation (deps : String → List String) (ids : List String)
    (d p : String) : Prop :=
  p ∈ ids ∧ d ∈ deps p

instance (deps : String → List String) (ids : List String) (d p : String) :
    Decidable (depRelation deps ids d p) := by
  unfold depRelation
  infer_instance

/-- C8: whenever `LoadAll` succeeds (for any map-iteration orders, i.e. any
permutations `iterG`, `iterQ` of the loaded ids), every profile in the
transitive closure of a loaded profile's `inherits_from` and `depends_on`
edges appears strictly before it in the registry's load order. -/
theorem C8_dependency_order (iterG iterQ : List String)
    (files : List Profile) (reg : ProfileRegistry)
    (hG : iterG.Perm (profileIds files)) (hQ : iterQ.Perm (profileIds files))
    (hok : LoadAll iterG iterQ files = Except.ok reg) :
    ∀ d p, Relation.TransGen
        (depRelation (depsFunOf (buildProfileMap files)) (profileIds files))
        d p →
      reg.loadOrder.indexOf d < reg.loadOrder.indexOf p := by
  have htopo := LoadAll_ok_loadOrder hok
  have hQn : iterQ.Nodup := hQ.nodup_iff.2 (profileIds_nodup files)
  obtain ⟨hperm, hnodup, hI3⟩ :=
    topologicalSort_ok iterG iterQ (depsFunOf (buildProfileMap files))
      (profileIds files) reg.loadOrder hQn
      (fun x hx => hG.subset hx) (fun x hx => hQ.subset hx) htopo
  have hstep : ∀ d p,
      depRelation (depsFunOf (buildProfileMap files)) (profileIds files) d p →
      reg.loadOrder.indexOf d < reg.loadOrder.indexOf p := by
    rintro d p ⟨hp, hd⟩
    have hedge : (d, p) ∈
        buildEdges iterG (depsFunOf (buildProfileMap files)) :=
      mem_buildEdges_of (hG.symm.subset hp) hd
    have hpin : p ∈ reg.loadOrder := hperm.mem_iff.2 hp
    exact hI3 (d, p) hedge hpin
  intro d p htg
  induction htg with
  | single h => exact hstep _ _ h
  | tail _ hmp ih => exact lt_trans ih (hstep _ _ hmp)

/-- Fixture files for the C8 witness: a three-profile dependency chain
`base ← child1 ← child2`. -/
def c8Files : List Profile :=
  [mkLoadProfile "base" "" [],
   mkLoadProfile "child1" "" ["base"],
   mkLoadProfile "child2" "" ["child1"]]

/-- The registry produced by loading `c8Files` in listed iteration order. -/
def c8Reg : ProfileRegistry :=
  { profiles := [("base", mkLoadProfile "base" "" []),
                 ("child1", mkLoadProfile "child1" "" ["base"]),
                 ("child2", mkLoadProfile "child2" "" ["child1"])],
    dependencies := [("base", []), ("child1", ["base"]),
                     ("child2", ["child1"])],
    loadOrder := ["base", "child1", "child2"] }

unseal Rat.add Rat.mul Rat.inv Rat.ofScientific in
/-- Witness for C8 at the fixture chain: `base` is a transitive dependency
of `child2` and precedes it in the load order. -/
theorem C8_dependency_order_witness :
    List.Perm ["base", "child1", "child2"] (profileIds c8Files) ∧
    LoadAll ["base", "child1", "child2"] ["base", "child1", "child2"]
        c8Files = Except.ok c8Reg ∧
    Relation.TransGen
      (depRelation (depsFunOf (buildProfileMap c8Files)) (profileIds c8Files))
      "base" "child2" ∧
    c8Reg.loadOrder.indexOf "base" < c8Reg.loadOrder.indexOf "child2" := by
  have hperm : List.Perm ["base", "child1", "child2"] (profileIds c8Files) := by
    decide
  have hok : LoadAll ["base", "child1", "child2"]
      ["base", "child1", "child2"] c8Files = Except.ok c8Reg := by rfl
  have hd1 : depRelation (depsFunOf (buildProfileMap c8Files))
      (profileIds c8Files) "base" "child1" := ⟨by decide, by decide⟩
  have hd2 : depRelation (depsFunOf (buildProfileMap c8Files))
      (profileIds c8Files) "child1" "child2" := ⟨by decide, by decide⟩
  have htg : Relation.TransGen
      (depRelation (depsFunOf (buildProfileMap c8Files)) (profileIds c8Files))
      "base" "child2" :=
    Relation.TransGen.tail (Relation.TransGen.single hd1) hd2
  exact ⟨hperm, hok, htg,
    C8_dependency_order ["base", "child1", "child2"]
      ["base", "child1", "child2"] c8Files c8Reg hperm hperm hok
      "base" "child2" htg⟩

/-- Fixture files for C4: two independent, valid profiles. -/
def c4Files : List Profile :=
  [mkLoadProfile "pa" "" [], mkLoadProfile "pb" "" []]

/-- Registry produced from `c4Files` with queue-iteration order `pa, pb`. -/
def c4RegA : ProfileRegistry :=
  { profiles := [("pa", mkLoadProfile "pa" "" []),
                 ("pb", mkLoadProfile "pb" "" [])],
    dependencies := [("pa", []), ("pb", [])],
    loadOrder := ["pa", "pb"] }

/-- Registry produced from `c4Files` with queue-iteration order `pb, pa`. -/
def c4RegB : ProfileRegistry :=
  { profiles := [("pa", mkLoadProfile "pa" "" []),
                 ("pb", mkLoadProfile "pb" "" [])],
    dependencies := [("pa", []), ("pb", [])],
    loadOrder := ["pb", "pa"] }

unseal Rat.add Rat.mul Rat.inv Rat.ofScientific in
/-- C4 counterexample: with identical directory contents, two runs of
`LoadAll` that happen to iterate the in-degree map in different orders
produce different registries (their load orders differ) — the loader applies
no lexicographic tie-break. -/
theorem C4_counterexample :
    LoadAll ["pa", "pb"] ["pa", "pb"] c4Files ≠
      LoadAll ["pa", "pb"] ["pb", "pa"] c4Files := by
  intro h
  have hA : LoadAll ["pa", "pb"] ["pa", "pb"] c4Files =
      Except.ok c4RegA := by rfl
  have hB : LoadAll ["pa", "pb"] ["pb", "pa"] c4Files =
      Except.ok c4RegB := by rfl
  rw [hA, hB] at h
  injection h with h'
  have hlo := congrArg ProfileRegistry.loadOrder h'
  simp [c4RegA, c4RegB] at hlo

/-- C4 amended: `LoadAll` is a pure function of the directory contents and
the two map-iteration orders — two loads with identical iteration orders
produce identical registries — and any two successful loads over the same
contents produce load orders that are permutations of each other; but the
source applies no lexicographic tie-break, so runs with different iteration
orders may produce differently ordered registries (`C4_counterexample`). -/
theorem C4_loadorder_determinism (iterG1 iterQ1 iterG2 iterQ2 : List String)
    (files : List Profile) (reg1 reg2 : ProfileRegistry)
    (hG1 : iterG1.Perm (profileIds files))
    (hQ1 : iterQ1.Perm (profileIds files))
    (hG2 : iterG2.Perm (profileIds files))
    (hQ2 : iterQ2.Perm (profileIds files))
    (h1 : LoadAll iterG1 iterQ1 files = Except.ok reg1)
    (h2 : LoadAll iterG2 iterQ2 files = Except.ok reg2) :
    reg1.loadOrder.Perm reg2.loadOrder ∧
      (iterG1 = iterG2 → iterQ1 = iterQ2 → reg1 = reg2) := by
  constructor
  · obtain ⟨hp1, -, -⟩ :=
      topologicalSort_ok iterG1 iterQ1 (depsFunOf (buildProfileMap files))
        (profileIds files) reg1.loadOrder
        (hQ1.nodup_iff.2 (profileIds_nodup files))
        (fun x hx => hG1.subset hx) (fun x hx => hQ1.subset hx)
        (LoadAll_ok_loadOrder h1)
    obtain ⟨hp2, -, -⟩ :=
      topologicalSort_ok iterG2 iterQ2 (depsFunOf (buildProfileMap files))
        (profileIds files) reg2.loadOrder
        (hQ2.nodup_iff.2 (profileIds_nodup files))
        (fun x hx => hG2.subset hx) (fun x hx => hQ2.subset hx)
        (LoadAll_ok_loadOrder h2)
    exact hp1.trans hp2.symm
  · intro hGeq hQeq
    subst hGeq
    subst hQeq
    rw [h1] at h2
    injection h2

unseal Rat.add Rat.mul Rat.inv Rat.ofScientific in
/-- Witness for the amended C4 at the two-profile fixture. -/
theorem C4_loadorder_determinism_witness :
    List.Perm ["pa", "pb"] (profileIds c4Files) ∧
    List.Perm ["pb", "pa"] (profileIds c4Files) ∧
    LoadAll ["pa", "pb"] ["pa", "pb"] c4Files = Except.ok c4RegA ∧
    LoadAll ["pa", "pb"] ["pb", "pa"] c4Files = Except.ok c4RegB ∧
    (c4RegA.loadOrder.Perm c4RegB.loadOrder ∧
      (["pa", "pb"] = ["pa", "pb"] → (["pa", "pb"] : List String) = ["pb", "pa"] →
        c4RegA = c4RegB)) := by
  have hpA : List.Perm ["pa", "pb"] (profileIds c4Files) := by decide
  have hpB : List.Perm ["pb", "pa"] (profileIds c4Files) := by decide
  have hokA : LoadAll ["pa", "pb"] ["pa", "pb"] c4Files =
      Except.ok c4RegA := by rfl
  have hokB : LoadAll ["pa", "pb"] ["pb", "pa"] c4Files =
      Except.ok c4RegB := by rfl
  exact ⟨hpA, hpB, hokA, hokB,
    C4_loadorder_determinism ["pa", "pb"] ["pa", "pb"] ["pa", "pb"]
      ["pb", "pa"] c4Files c4RegA c4RegB hpA hpA hpA hpB hokA hokB⟩

end MailSentinel
